import Mathlib

/-!
# MTSIO adapter: request processing pipeline

A shallow embedding of `main.go` / `constants.go` of the Multitech MTSIO adapter:
`createCommandArgs`, `convertResponseValue`, `createJsonError`, `executeCommands` and the
message branch of `subscribeWorker`.

Conventions of the embedding.

* A decoded JSON value (`interface{}` as produced by `encoding/json`) is a `JValue`;
  a Go `map[string]interface{}` is an association list `JMap`, read with `jget`
  (absent key gives `nil`, as the Go map index does) and written with `jset`.
* A failing Go type assertion `x.(T)` is a run-time panic; fallible steps return `Option`
  and `executeCommands` records the panic in its outcome.
* The Go standard library and the outside world (`json.Unmarshal`, `json.Marshal`,
  `strconv.ParseFloat`, `strconv.FormatFloat`, the `mts-io-sysfs` process, the clock,
  the topic root variable) are the fields of `Env`; every general theorem
  quantifies over all of them.
* In-place mutation of the object maps inside the `objects` slice is made explicit:
  the loop returns the updated object list, and `jsonPayload["objects"]` read after the loop
  is that updated list.
-/

namespace Mtsio

/-! ## Constants (`constants.go`, `main.go` const block) -/

def MTSIO_CMD : String := "mts-io-sysfs"
def MTSIO_READ : String := "show"
def MTSIO_WRITE : String := "store"
def MTSIO_ON : Nat := 1
def MTSIO_OFF : Nat := 0
def mtsIoRead : String := "read"
def mtsIoWrite : String := "write"

/-! ## Values -/

/-- A Go `float64` value: not-a-number, a signed infinity, or the finite value
`(-1)^neg * mant * 2^exp`. -/
inductive Float64 where
  | nan
  | inf (neg : Bool)
  | fin (neg : Bool) (mant : Nat) (exp : Int)

namespace Float64

/-- Conversion of an untyped integer constant to `float64`. -/
def ofNat (n : Nat) : Float64 := .fin false n 0

/-- Go `==` on `float64`: NaN equals nothing, the two zeros are equal, finite values are
compared by value. -/
def feq : Float64 → Float64 → Bool
  | .fin n1 m1 e1, .fin n2 m2 e2 =>
    let e := min e1 e2
    let a := m1 * 2 ^ (e1 - e).toNat
    let b := m2 * 2 ^ (e2 - e).toNat
    decide (a = b) && (decide (n1 = n2) || decide (a = 0))
  | .inf a, .inf b => decide (a = b)
  | _, _ => false

end Float64

/-- A decoded JSON value, the dynamic content of a Go `interface{}` filled by `encoding/json`:
`nil`, `bool`, `float64`, `string`, `[]interface{}` or `map[string]interface{}`. -/
inductive JValue where
  | null
  | bool (b : Bool)
  | num (f : Float64)
  | str (s : String)
  | arr (items : List JValue)
  | obj (fields : List (String × JValue))

/-- A Go `map[string]interface{}`. -/
abbrev JMap := List (String × JValue)

/-- Go map index `m[k]`: the value stored under `k`, `nil` when the key is absent. -/
def jget : JMap → String → JValue
  | [], _ => .null
  | (k', v) :: rest, k => if k' = k then v else jget rest k

/-- Go map assignment `m[k] = v`. -/
def jset : JMap → String → JValue → JMap
  | [], k, v => [(k, v)]
  | (k', v') :: rest, k, v => if k' = k then (k, v) :: rest else (k', v') :: jset rest k v

/-- Type assertion `x.(string)`; `none` is the run-time panic. -/
def asString : JValue → Option String
  | .str s => some s
  | _ => none

/-- Type assertion `x.(map[string]interface{})`; `none` is the run-time panic. -/
def asObject : JValue → Option JMap
  | .obj fields => some fields
  | _ => none

/-- Type assertion `x.([]interface{})`; `none` is the run-time panic. -/
def asArray : JValue → Option (List JValue)
  | .arr items => some items
  | _ => none

/-! ## Library and world interface -/

/-- The parts of the Go standard library and of the outside world the pipeline calls.
`σ` is the hidden state of the device utility. -/
structure Env (σ : Type) where
  /-- The call `json.Unmarshal(payload, &jsonPayload)` with `jsonPayload` a nil map: the error text,
  or the resulting map (a JSON `null` leaves the nil map, which reads like the empty map). -/
  unmarshal : List UInt8 → Except String JMap
  /-- The call `json.Marshal(jsonResp)`: the error text or the encoded bytes as a string. -/
  marshal : JMap → Except String String
  /-- The call `strconv.ParseFloat(s, 64)`: `none` when it returns an error. -/
  parseFloat : String → Option Float64
  /-- The call `strconv.FormatFloat(f, 'E', -1, 64)`. -/
  formatFloat : Float64 → String
  /-- One run of `exec.Command(MTSIO_CMD, args...)` with stdout captured: the error text of
  `cmd.Run()` or the captured stdout, and the next state of the device utility. -/
  run : σ → List String → Except String String × σ
  /-- The value of `time.Now().UTC().Format(time.RFC3339)`. -/
  now : String
  /-- The package variable `topicRoot`. -/
  topicRoot : String

/-! ## `createCommandArgs`, `convertResponseValue`, `createJsonError` -/

/-- Go `strconv.Itoa` on the two constants used by the adapter. -/
def itoa (n : Nat) : String := toString n

/-- The function `createCommandArgs` of `main.go`; `none` is the panic of `object["name"].(string)`. -/
def createCommandArgs {σ : Type} (env : Env σ) (operation portName : String) (object : JMap) :
    Option (List String) :=
  match asString (jget object "name") with
  | none => none
  | some name =>
    let cmdArgs := [operation, portName ++ "/" ++ name]
    if operation = MTSIO_WRITE then
      match jget object "value" with
      | .null => some cmdArgs
      | .str s => some (cmdArgs ++ [s])
      | .num f => some (cmdArgs ++ [env.formatFloat f])
      | .bool b => if b then some (cmdArgs ++ [itoa MTSIO_ON]) else some (cmdArgs ++ [itoa MTSIO_OFF])
      | _ => some cmdArgs
    else some cmdArgs

/-- The function `convertResponseValue` of `main.go`. -/
def convertResponseValue {σ : Type} (env : Env σ) (respVal : String) : JValue :=
  match env.parseFloat respVal with
  | some numVal =>
    if Float64.feq numVal (Float64.ofNat MTSIO_ON) then .bool true
    else if Float64.feq numVal (Float64.ofNat MTSIO_OFF) then .bool false
    else .num numVal
  | none => .str respVal

/-- The function `createJsonError` of `main.go`. -/
def createJsonError (errMsg : String) : JMap :=
  jset (jset [] "success" (.bool false)) "error" (.str errMsg)

/-- The expression `strings.Replace(out.String(), "\n", "", -1)` of `executeCommands`:
every occurrence of the newline character is removed. -/
def stripNewlines (out : String) : String :=
  String.mk (out.data.filter (fun c => c != '\n'))

/-! ## `executeCommands` -/

/-- How the `for _, v := range objects` loop of `executeCommands` ended. -/
inductive LoopStatus where
  | completed
  | failed (err : String)
  | panicked

/-- State after the object loop. `calls` lists each process invocation with its result,
oldest first; `objects` is the content of the `objects` slice after the in-place updates. -/
structure LoopResult (σ : Type) where
  state : σ
  calls : List (List String × Except String String)
  objects : List JValue
  status : LoopStatus

/-- The loop `for _, v := range objects` of `executeCommands` (lines 303-319). `portName` is
`jsonPayload["portName"]`, asserted to be a string at each iteration. -/
def execLoop {σ : Type} (env : Env σ) (operation : String) (portName : JValue) :
    List JValue → σ → LoopResult σ
  | [], s => { state := s, calls := [], objects := [], status := .completed }
  | v :: rest, s =>
    match asString portName, asObject v with
    | some p, some object =>
      match createCommandArgs env operation p object with
      | none => { state := s, calls := [], objects := v :: rest, status := .panicked }
      | some args =>
        match env.run s args with
        | (.error err, s') =>
          { state := s', calls := [(args, .error err)], objects := v :: rest, status := .failed err }
        | (.ok out, s') =>
          let v' := if operation = MTSIO_READ then
              JValue.obj (jset object "value" (convertResponseValue env (stripNewlines out)))
            else v
          let r := execLoop env operation portName rest s'
          { r with calls := (args, .ok out) :: r.calls, objects := v' :: r.objects }
    | _, _ => { state := s, calls := [], objects := v :: rest, status := .panicked }

/-- Observable result of one call of `executeCommands`. -/
structure Outcome (σ : Type) where
  /-- State of the device utility afterwards. -/
  state : σ
  /-- Process invocations (argument list and result), oldest first. -/
  calls : List (List String × Except String String)
  /-- Calls of `publish(topic, data)`, oldest first. -/
  published : List (String × String)
  /-- Final value of the local variable `jsonResp` (`none` is the nil map). -/
  jsonResp : Option JMap
  /-- Whether a type assertion failed. -/
  panicked : Bool

/-- Validation part of `executeCommands` (lines 259-298): the value of `jsonPayload` and of
`jsonResp` when line 300 is reached. -/
def validate {σ : Type} (env : Env σ) (operation : String) (payload : List UInt8) :
    JMap × Option JMap :=
  let (jsonPayload, jsonResp) : JMap × Option JMap :=
    match env.unmarshal payload with
    | .error err => ([], some (createJsonError ("Error encountered unmarshalling json: " ++ err)))
    | .ok m => (m, none)
  -- Validate the operation argument
  let jsonResp : Option JMap :=
    match jsonResp with
    | none =>
      if operation = "" then some (createJsonError "Operation is required")
      else if operation ≠ MTSIO_READ ∧ operation ≠ MTSIO_WRITE then
        some (createJsonError "Invalid operation specified")
      else none
    | some r => some r
  -- first `objects` check
  let jsonResp : Option JMap :=
    match jsonResp with
    | none =>
      match jget jsonPayload "objects" with
      | .null => some (createJsonError "The objects array is required")
      | _ => none
    | some r => some r
  -- `portName` check, then the second `objects` check
  let jsonResp : Option JMap :=
    match jsonResp with
    | none =>
      let r1 : Option JMap :=
        match jget jsonPayload "portName" with
        | .null => some (createJsonError "portName is required")
        | _ => none
      match jget jsonPayload "objects" with
      | .null => some (createJsonError "The objects array is required")
      | _ => r1
    | some r => some r
  (jsonPayload, jsonResp)

/-- The response topic built at lines 339-346. -/
def responseTopic {σ : Type} (env : Env σ) (operation : String) : String :=
  let theTopic := env.topicRoot ++ "/"
  let theTopic := if operation = MTSIO_READ then theTopic ++ mtsIoRead else theTopic ++ mtsIoWrite
  theTopic ++ "/response"

/-- Lines 328-355 of `executeCommands`: add the timestamp, marshal, and publish to the response
topic; a marshalling failure skips the publish step. -/
def respond {σ : Type} (env : Env σ) (operation : String) (r : LoopResult σ) (jsonResp : JMap) :
    Outcome σ :=
  let jsonResp := jset jsonResp "timestamp" (.str env.now)
  match env.marshal jsonResp with
  | .error _ =>
    { state := r.state, calls := r.calls, published := [], jsonResp := some jsonResp,
      panicked := false }
  | .ok respStr =>
    { state := r.state, calls := r.calls, published := [(responseTopic env operation, respStr)],
      jsonResp := some jsonResp, panicked := false }

/-- The function `executeCommands` of `main.go`. -/
def executeCommands {σ : Type} (env : Env σ) (operation : String) (payload : List UInt8) (s : σ) :
    Outcome σ :=
  match validate env operation payload with
  | (_, some r) =>
    -- line 300: `jsonResp != nil`, the whole block including the publish step is skipped
    { state := s, calls := [], published := [], jsonResp := some r, panicked := false }
  | (jsonPayload, none) =>
    match asArray (jget jsonPayload "objects") with
    | none => { state := s, calls := [], published := [], jsonResp := none, panicked := true }
    | some objects =>
      let r := execLoop env operation (jget jsonPayload "portName") objects s
      -- the `objects` slice shares the object maps updated by the loop
      let jsonPayload := jset jsonPayload "objects" (.arr r.objects)
      match r.status with
      | .panicked =>
        { state := r.state, calls := r.calls, published := [], jsonResp := none, panicked := true }
      | .failed err =>
        respond env operation r
          (jset (jset (createJsonError err) "portName" (jget jsonPayload "portName"))
            "objects" (jget jsonPayload "objects"))
      | .completed => respond env operation r (jset jsonPayload "success" (.bool true))

/-! ## `subscribeWorker` -/

/-- The function `strings.HasSuffix`. -/
def hasSuffix (s suffix : String) : Bool :=
  decide (suffix.length ≤ s.length) && decide (s.data.drop (s.length - suffix.length) = suffix.data)

/-- What the adapter has done so far: process invocations and publish calls, oldest first. -/
structure World (σ : Type) where
  state : σ
  calls : List (List String × Except String String)
  published : List (String × String)
  panicked : Bool

/-- The world after one more call of `executeCommands`. -/
def World.record {σ : Type} (w : World σ) (o : Outcome σ) : World σ :=
  { state := o.state, calls := w.calls ++ o.calls, published := w.published ++ o.published,
    panicked := w.panicked || o.panicked }

/-- One `select` outcome in `subscribeWorker`. -/
inductive WorkerEvent where
  /-- A message `message, ok := <-cbSubscribeChannel` with `ok` true. -/
  | message (topic : String) (payload : List UInt8)
  /-- A receive with `ok` false. -/
  | closed
  /-- A receive on `endWorkersChannel`. -/
  | stop

/-- The body of `if ok { ... }` in `subscribeWorker` (lines 213-226): dispatch on the topic suffix. -/
def subscribeWorkerStep {σ : Type} (env : Env σ) (topic : String) (payload : List UInt8)
    (w : World σ) : World σ :=
  if hasSuffix topic (mtsIoRead ++ "/request") then
    w.record (executeCommands env MTSIO_READ payload w.state)
  else if hasSuffix topic (mtsIoWrite ++ "/request") then
    w.record (executeCommands env MTSIO_WRITE payload w.state)
  else w

/-- The function `subscribeWorker` of `main.go`, run over a sequence of `select` outcomes. A panic
ends the process. -/
def subscribeWorker {σ : Type} (env : Env σ) : List WorkerEvent → World σ → World σ
  | [], w => w
  | .stop :: _, w => w
  | .closed :: rest, w => subscribeWorker env rest w
  | .message topic payload :: rest, w =>
    let w' := subscribeWorkerStep env topic payload w
    if w'.panicked then w' else subscribeWorker env rest w'

/-! ## Sample environment

A scripted device utility and the library results on a handful of payloads, used to run the
definitions on concrete requests. -/

/-- The bytes of an ASCII text. -/
def bytes (s : String) : List UInt8 := s.data.map (fun c => UInt8.ofNat c.toNat)

/-- A device utility that answers from a script: each run consumes the next scripted result; with
the script exhausted the run fails. -/
def scriptedRun : List (Except String String) → List String → Except String String × List (Except String String)
  | [], _ => (.error "exit status 1", [])
  | r :: rest, _ => (r, rest)

def emptyPayload : List UInt8 := bytes "\x7b\x7d"
def truncatedPayload : List UInt8 := bytes "\x7b"
def objectsOnlyPayload : List UInt8 := bytes "\x7b\"objects\":[]\x7d"
def badObjectsPayload : List UInt8 :=
  bytes "\x7b\"portName\":\"gpiob\",\"objects\":\"dout0\"\x7d"
def writePayload : List UInt8 :=
  bytes ("\x7b\"portName\":\"gpiob\",\"objects\":[\x7b\"name\":\"dout0\",\"value\":true\x7d," ++
    "\x7b\"name\":\"dout1\",\"value\":false\x7d]\x7d")
def readPayload : List UInt8 :=
  bytes ("\x7b\"portName\":\"gpiob\",\"objects\":[\x7b\"name\":\"din0\",\"value\":\"\"\x7d," ++
    "\x7b\"name\":\"din1\",\"value\":\"\"\x7d]\x7d")

def writeRequest : JMap :=
  [("portName", .str "gpiob"),
   ("objects", .arr [.obj [("name", .str "dout0"), ("value", .bool true)],
                     .obj [("name", .str "dout1"), ("value", .bool false)]])]

def readRequest : JMap :=
  [("portName", .str "gpiob"),
   ("objects", .arr [.obj [("name", .str "din0"), ("value", .str "")],
                     .obj [("name", .str "din1"), ("value", .str "")]])]

/-- The results of `json.Unmarshal` on the sample payloads; every other payload used here is
the truncated one, which the library rejects. -/
def sampleUnmarshal (payload : List UInt8) : Except String JMap :=
  if payload = emptyPayload then .ok []
  else if payload = objectsOnlyPayload then .ok [("objects", .arr [])]
  else if payload = badObjectsPayload then
    .ok [("portName", .str "gpiob"), ("objects", .str "dout0")]
  else if payload = writePayload then .ok writeRequest
  else if payload = readPayload then .ok readRequest
  else .error "unexpected end of JSON input"

/-- The results of `strconv.ParseFloat` on the sample outputs `1`, `0` and `42`; the other sample
outputs are not numbers. -/
def sampleParseFloat (s : String) : Option Float64 :=
  if s = "1" then some (.fin false 1 0)
  else if s = "0" then some (.fin false 0 0)
  else if s = "42" then some (.fin false 42 0)
  else none

/-- A sample environment over the scripted device utility. No statement inspects the marshalled
text, so `marshal` returns a fixed text; the sample requests carry no numeric value, so
`formatFloat` is never consulted and returns the text of 42. -/
def sampleEnv : Env (List (Except String String)) where
  unmarshal := sampleUnmarshal
  marshal := fun _ => .ok "<response>"
  parseFloat := sampleParseFloat
  formatFloat := fun _ => "4.2E+01"
  run := scriptedRun
  now := "2019-03-01T12:00:00Z"
  topicRoot := "wayside/mtsio"

/-! ## Reference definitions taken from the specification, and predicates used in the statements -/

/-- Reference encoding of a write value, after §4.1 of the specification: a string is passed
through verbatim, a number is formatted in exponent notation, a boolean becomes `1` or `0`, and a
null or absent value gives no argument. Values outside the `ObjectSpec` value types have no
encoding. -/
def encodeRef {σ : Type} (env : Env σ) : JValue → Option String
  | .str s => some s
  | .num f => some (env.formatFloat f)
  | .bool true => some "1"
  | .bool false => some "0"
  | _ => none

/-- Reference translation, after §4.2 of the specification: always the operation token and
`portName/name`; for the write token only, the encoded value when there is one. -/
def translateRef {σ : Type} (env : Env σ) (operation portName name : String) (value : JValue) :
    List String :=
  [operation, portName ++ "/" ++ name] ++
    (if operation = "store" then (encodeRef env value).toList else [])

/-- Reference trimming, after §4.1 of the specification: the text without its trailing newline. -/
def trimTrailingNewline (s : String) : String :=
  if s.data.getLast? = some '\n' then String.mk s.data.dropLast else s

/-- An element of `objects` on which the type assertions of the loop succeed: a JSON object whose
`name` is a string. -/
def validObject : JValue → Bool
  | .obj fields => (asString (jget fields "name")).isSome
  | _ => false

/-- Whether a process run succeeded. -/
def isOk : Except String String → Bool
  | .ok _ => true
  | .error _ => false

/-- The object `v` after a successful run with standard output `out` (lines 315-317): on `show`
its `value` is replaced by the decoded output, otherwise it is left alone. -/
def resolve {σ : Type} (env : Env σ) (operation : String) (fields : JMap) (out : String) : JValue :=
  if operation = MTSIO_READ then
    .obj (jset fields "value" (convertResponseValue env (stripNewlines out)))
  else .obj fields

/-- What the object loop guarantees on a request whose port name is a string and whose objects
are all well formed. -/
structure LoopFacts {σ : Type} (env : Env σ) (operation p : String) (os : List JValue)
    (r : LoopResult σ) : Prop where
  not_panicked : r.status ≠ .panicked
  objects_length : r.objects.length = os.length
  calls_length : r.calls.length ≤ os.length
  calls_args : r.calls.map (fun c => some c.1)
    = (os.take r.calls.length).map (fun o => (asObject o).bind (createCommandArgs env operation p))
  init_ok : ∀ c ∈ r.calls.dropLast, isOk c.2 = true
  completed : r.status = .completed → r.calls.length = os.length ∧ ∀ c ∈ r.calls, isOk c.2 = true
  failed : ∀ e, r.status = .failed e → ∃ args, r.calls.getLast? = some (args, .error e)
  resolved : ∀ (i : Nat) (fields : JMap) (args : List String) (out : String),
    os[i]? = some (.obj fields) → r.calls[i]? = some (args, .ok out) →
      r.objects[i]? = some (resolve env operation fields out)
  untouched : ∀ i : Nat, (∀ args out, r.calls[i]? ≠ some (args, .ok out)) → r.objects[i]? = os[i]?

/-! ## Map lemmas -/

theorem jget_jset_same (m : JMap) (k : String) (v : JValue) : jget (jset m k v) k = v := by
  induction m with
  | nil => simp [jset, jget]
  | cons hd tl ih =>
    obtain ⟨k', v'⟩ := hd
    by_cases h : k' = k
    · simp [jset, jget, h]
    · simp [jset, jget, h, ih]

theorem jget_jset_other (m : JMap) (k k' : String) (v : JValue) (h : k ≠ k') :
    jget (jset m k v) k' = jget m k' := by
  induction m with
  | nil => simp [jset, jget, h]
  | cons hd tl ih =>
    obtain ⟨k0, v0⟩ := hd
    by_cases h0 : k0 = k
    · subst h0
      simp [jset, jget, h]
    · by_cases h1 : k0 = k'
      · subst h1
        simp [jset, jget, h0]
      · simp [jset, jget, h0, h1, ih]

/-! ## `createCommandArgs` -/

/-- C7. `createCommandArgs` equals the reference translation: for every operation token, port name
and object whose `name` is a string `n`, the result is `[op, p/n]` followed by at most one value
argument, present only when the operation is `store` and the value is non-null; a string value is
passed as is, `true` gives `"1"`, `false` gives `"0"`; for `show` the result is exactly
`["show", p/n]`, and for `store` with a null or absent value exactly `["store", p/n]`. -/
theorem createCommandArgs_eq_translateRef {σ : Type} (env : Env σ) (operation portName : String)
    (object : JMap) (n : String) (hname : jget object "name" = .str n) :
    createCommandArgs env operation portName object
        = some (translateRef env operation portName n (jget object "value"))
      ∧ (∃ rest, createCommandArgs env operation portName object
            = some ([operation, portName ++ "/" ++ n] ++ rest)
          ∧ rest.length ≤ 1
          ∧ (rest ≠ [] → operation = "store" ∧ jget object "value" ≠ .null))
      ∧ (∀ s, operation = "store" → jget object "value" = .str s →
          createCommandArgs env operation portName object = some ["store", portName ++ "/" ++ n, s])
      ∧ (operation = "store" → jget object "value" = .bool true →
          createCommandArgs env operation portName object = some ["store", portName ++ "/" ++ n, "1"])
      ∧ (operation = "store" → jget object "value" = .bool false →
          createCommandArgs env operation portName object = some ["store", portName ++ "/" ++ n, "0"])
      ∧ (operation = "show" →
          createCommandArgs env operation portName object = some ["show", portName ++ "/" ++ n])
      ∧ (operation = "store" → jget object "value" = .null →
          createCommandArgs env operation portName object = some ["store", portName ++ "/" ++ n]) := by
  have h1 : itoa MTSIO_ON = "1" := by decide
  have h0 : itoa MTSIO_OFF = "0" := by decide
  have hrw : ("show" : String) ≠ MTSIO_WRITE := by decide
  refine ⟨?_, ?_, ?_, ?_, ?_, ?_, ?_⟩
  · unfold createCommandArgs translateRef
    simp only [hname, asString, MTSIO_WRITE]
    by_cases hop : operation = "store"
    · cases hv : jget object "value" with
      | bool b => cases b <;> simp [hop, encodeRef, h1, h0]
      | _ => simp [hop, encodeRef]
    · simp [hop]
  · unfold createCommandArgs
    simp only [hname, asString, MTSIO_WRITE]
    by_cases hop : operation = "store"
    · cases hv : jget object "value" with
      | bool b => cases b <;> simp [hop]
      | _ => simp [hop]
    · simp [hop]
  · intro s hop hv
    simp [createCommandArgs, hname, asString, MTSIO_WRITE, hop, hv]
  · intro hop hv
    simp [createCommandArgs, hname, asString, MTSIO_WRITE, hop, hv, h1]
  · intro hop hv
    simp [createCommandArgs, hname, asString, MTSIO_WRITE, hop, hv, h0]
  · intro hop
    subst hop
    simp [createCommandArgs, hname, asString, hrw]
  · intro hop hv
    simp [createCommandArgs, hname, asString, MTSIO_WRITE, hop, hv]

/-- Witness for C7 on the object `dout0` with value `true` of port `gpiob`. -/
theorem createCommandArgs_eq_translateRef_witness :
    createCommandArgs sampleEnv "store" "gpiob" [("name", .str "dout0"), ("value", .bool true)]
      = some ["store", "gpiob/dout0", "1"] :=
  (createCommandArgs_eq_translateRef sampleEnv "store" "gpiob"
    [("name", .str "dout0"), ("value", .bool true)] "dout0" rfl).2.2.2.1 rfl rfl

/-! ## `convertResponseValue` -/

theorem feq_on_not_off (x : Float64) (h : Float64.feq x (Float64.ofNat MTSIO_ON) = true) :
    Float64.feq x (Float64.ofNat MTSIO_OFF) = false := by
  cases x with
  | nan => rfl
  | inf neg => rfl
  | fin neg mant exp =>
    simp only [Float64.feq, Float64.ofNat, MTSIO_ON, MTSIO_OFF, Bool.and_eq_true,
      decide_eq_true_eq, one_mul, zero_mul] at h ⊢
    have hpos : 0 < 2 ^ (0 - min exp 0).toNat := Nat.pow_pos (by decide)
    have hne : mant * 2 ^ (exp - min exp 0).toNat ≠ 0 := by omega
    simp [hne]

/-- C8. `convertResponseValue` decodes every text as specified: a text that parses as a number
equal to 1 gives `true`, one that parses as a number equal to 0 gives `false`, one that parses as
any other number gives that number, and one that does not parse gives the text itself. In
particular `"1"` gives `true` and `"0"` gives `false` whenever the library parses them as numbers
equal to 1 and 0. -/
theorem convertResponseValue_decodes {σ : Type} (env : Env σ) (respVal : String) :
    (∀ x, env.parseFloat respVal = some x → Float64.feq x (Float64.ofNat 1) = true →
        convertResponseValue env respVal = .bool true)
      ∧ (∀ x, env.parseFloat respVal = some x → Float64.feq x (Float64.ofNat 0) = true →
        convertResponseValue env respVal = .bool false)
      ∧ (∀ x, env.parseFloat respVal = some x → Float64.feq x (Float64.ofNat 1) = false →
        Float64.feq x (Float64.ofNat 0) = false → convertResponseValue env respVal = .num x)
      ∧ (env.parseFloat respVal = none → convertResponseValue env respVal = .str respVal)
      ∧ ((∃ x, env.parseFloat "1" = some x ∧ Float64.feq x (Float64.ofNat 1) = true) →
        convertResponseValue env "1" = .bool true)
      ∧ ((∃ x, env.parseFloat "0" = some x ∧ Float64.feq x (Float64.ofNat 0) = true) →
        convertResponseValue env "0" = .bool false) := by
  have hoff : ∀ (s : String) (x : Float64), env.parseFloat s = some x →
      Float64.feq x (Float64.ofNat 0) = true → convertResponseValue env s = .bool false := by
    intro s x hp h0
    have h1 : Float64.feq x (Float64.ofNat MTSIO_ON) = false := by
      cases h : Float64.feq x (Float64.ofNat MTSIO_ON) with
      | false => rfl
      | true =>
        have := feq_on_not_off x h
        simp only [MTSIO_OFF] at this
        rw [h0] at this
        cases this
    simp only [MTSIO_ON] at h1
    simp [convertResponseValue, hp, MTSIO_ON, MTSIO_OFF, h1, h0]
  refine ⟨?_, hoff respVal, ?_, ?_, ?_, ?_⟩
  · intro x hp h1
    simp [convertResponseValue, hp, MTSIO_ON, h1]
  · intro x hp h1 h0
    simp [convertResponseValue, hp, MTSIO_ON, MTSIO_OFF, h1, h0]
  · intro hp
    simp [convertResponseValue, hp]
  · rintro ⟨x, hp, h1⟩
    simp [convertResponseValue, hp, MTSIO_ON, h1]
  · rintro ⟨x, hp, h0⟩
    exact hoff "0" x hp h0

/-- Witness for C8: in the sample environment the output `"0"` decodes to `false`. -/
theorem convertResponseValue_decodes_witness :
    convertResponseValue sampleEnv "0" = .bool false :=
  (convertResponseValue_decodes sampleEnv "0").2.1 (.fin false 0 0) rfl rfl

/-! ## `subscribeWorker` dispatch -/

theorem hasSuffix_iff (s suffix : String) :
    hasSuffix s suffix = true ↔ suffix.data <:+ s.data := by
  unfold hasSuffix
  simp only [Bool.and_eq_true, decide_eq_true_eq, String.length]
  constructor
  · rintro ⟨_, h⟩
    rw [← h]
    exact List.drop_suffix _ _
  · intro h
    have hlen := h.length_le
    refine ⟨hlen, ?_⟩
    obtain ⟨t, ht⟩ := h
    rw [← ht]
    simp

theorem not_read_and_write_suffix (topic : String)
    (hr : hasSuffix topic "read/request" = true) : hasSuffix topic "write/request" = false := by
  cases hw : hasSuffix topic "write/request" with
  | false => rfl
  | true =>
    rw [hasSuffix_iff] at hr hw
    have h := List.suffix_of_suffix_length_le hr hw (by decide)
    have : ¬ ("read/request".data <:+ "write/request".data) := by decide
    exact absurd h this

/-- C9. The dispatch step of `subscribeWorker` classifies a message by topic suffix: a topic ending
in `read/request` is processed by `executeCommands` with operation `show`, a topic ending in
`write/request` with operation `store`, and for a topic ending in neither the message is dropped:
the world is unchanged, so nothing is published and no process is invoked. -/
theorem subscribeWorkerStep_dispatch {σ : Type} (env : Env σ) (topic : String)
    (payload : List UInt8) (w : World σ) :
    (hasSuffix topic "read/request" = true →
        subscribeWorkerStep env topic payload w
          = w.record (executeCommands env "show" payload w.state))
      ∧ (hasSuffix topic "write/request" = true →
        subscribeWorkerStep env topic payload w
          = w.record (executeCommands env "store" payload w.state))
      ∧ (hasSuffix topic "read/request" = false → hasSuffix topic "write/request" = false →
        subscribeWorkerStep env topic payload w = w
          ∧ (subscribeWorkerStep env topic payload w).published = w.published
          ∧ (subscribeWorkerStep env topic payload w).calls = w.calls) := by
  have hr : mtsIoRead ++ "/request" = "read/request" := by decide
  have hw : mtsIoWrite ++ "/request" = "write/request" := by decide
  unfold subscribeWorkerStep
  rw [hr, hw]
  refine ⟨?_, ?_, ?_⟩
  · intro h
    simp [h, MTSIO_READ]
  · intro h
    have h' : hasSuffix topic "read/request" = false := by
      cases hx : hasSuffix topic "read/request" with
      | false => rfl
      | true =>
        have := not_read_and_write_suffix topic hx
        rw [h] at this
        cases this
    simp [h, h', MTSIO_WRITE]
  · intro h1 h2
    simp [h1, h2]

/-- Witness for C9: a write request on the default topic root is run with operation `store`, and a
message on a response topic is dropped. -/
theorem subscribeWorkerStep_dispatch_witness :
    subscribeWorkerStep sampleEnv "wayside/mtsio/write/request" writePayload
        { state := [.ok "", .ok ""], calls := [], published := [], panicked := false }
      = World.record { state := [.ok "", .ok ""], calls := [], published := [], panicked := false }
          (executeCommands sampleEnv "store" writePayload [.ok "", .ok ""])
    ∧ subscribeWorkerStep sampleEnv "wayside/mtsio/write/response" writePayload
        { state := [.ok "", .ok ""], calls := [], published := [], panicked := false }
      = { state := [.ok "", .ok ""], calls := [], published := [], panicked := false } :=
  ⟨(subscribeWorkerStep_dispatch sampleEnv "wayside/mtsio/write/request" writePayload _).2.1
      (by decide),
   ((subscribeWorkerStep_dispatch sampleEnv "wayside/mtsio/write/response" writePayload _).2.2
      (by decide) (by decide)).1⟩

/-! ## The object loop on well-formed requests -/

theorem createCommandArgs_isSome {σ : Type} (env : Env σ) (operation portName : String)
    (fields : JMap) (h : (asString (jget fields "name")).isSome = true) :
    ∃ args, createCommandArgs env operation portName fields = some args := by
  unfold createCommandArgs
  cases hn : asString (jget fields "name") with
  | none => simp [hn] at h
  | some name =>
    simp only
    by_cases hop : operation = MTSIO_WRITE
    · cases hv : jget fields "value" with
      | bool b => cases b <;> simp [hop]
      | _ => simp [hop]
    · simp [hop]

theorem execLoop_cons {σ : Type} (env : Env σ) (operation p : String) (v : JValue)
    (rest : List JValue) (s : σ) (hv : validObject v = true) :
    ∃ fields args, v = .obj fields ∧ createCommandArgs env operation p fields = some args ∧
      execLoop env operation (.str p) (v :: rest) s =
        match env.run s args with
        | (.error err, s') =>
          { state := s', calls := [(args, .error err)], objects := v :: rest, status := .failed err }
        | (.ok out, s') =>
          { state := (execLoop env operation (.str p) rest s').state,
            calls := (args, .ok out) :: (execLoop env operation (.str p) rest s').calls,
            objects := resolve env operation fields out
              :: (execLoop env operation (.str p) rest s').objects,
            status := (execLoop env operation (.str p) rest s').status } := by
  cases v with
  | obj fields =>
    obtain ⟨args, hargs⟩ := createCommandArgs_isSome env operation p fields hv
    refine ⟨fields, args, rfl, hargs, ?_⟩
    simp only [execLoop, asString, asObject, hargs]
    rcases hrun : env.run s args with ⟨res, s'⟩
    cases res with
    | error err => rfl
    | ok out =>
      simp only [resolve]
  | _ => simp [validObject] at hv

theorem execLoop_facts {σ : Type} (env : Env σ) (operation p : String) :
    ∀ (os : List JValue) (s : σ), (∀ o ∈ os, validObject o = true) →
      LoopFacts env operation p os (execLoop env operation (.str p) os s) := by
  intro os
  induction os with
  | nil =>
    intro s _
    constructor <;> simp [execLoop]
  | cons v rest ih =>
    intro s hvalid
    have hv : validObject v = true := hvalid v (List.mem_cons_self _ _)
    have hrest : ∀ o ∈ rest, validObject o = true := fun o ho => hvalid o (List.mem_cons_of_mem _ ho)
    obtain ⟨fields, args, hobj, hargs, hstep⟩ := execLoop_cons env operation p v rest s hv
    rw [hstep]
    rcases hrun : env.run s args with ⟨res, s'⟩
    cases res with
    | error err =>
      simp only
      constructor
      · simp
      · simp
      · simp
      · simp [hobj, asObject, hargs]
      · simp
      · simp
      · intro e he
        simp only [LoopStatus.failed.injEq] at he
        subst he
        exact ⟨args, rfl⟩
      · intro i fields' args' out h1 h2
        cases i with
        | zero => simp at h2
        | succ j => simp at h2
      · intro i _
        rfl
    | ok out =>
      simp only
      have F := ih s' hrest
      constructor
      · exact F.not_panicked
      · simp [F.objects_length]
      · simp only [List.length_cons]
        have := F.calls_length
        omega
      · simp only [List.map_cons, List.length_cons, List.take_succ_cons, F.calls_args]
        simp [hobj, asObject, hargs]
      · intro c hc
        cases hcs : (execLoop env operation (.str p) rest s').calls with
        | nil => simp [hcs] at hc
        | cons c0 cs =>
          rw [hcs, List.dropLast_cons₂] at hc
          rcases List.mem_cons.mp hc with h | h
          · subst h
            rfl
          · exact F.init_ok c (by rw [hcs]; exact h)
      · intro hst
        obtain ⟨hlen, hall⟩ := F.completed hst
        refine ⟨by simp [hlen], ?_⟩
        intro c hc
        rcases List.mem_cons.mp hc with h | h
        · subst h
          rfl
        · exact hall c h
      · intro e he
        obtain ⟨args', hlast⟩ := F.failed e he
        refine ⟨args', ?_⟩
        cases hcs : (execLoop env operation (.str p) rest s').calls with
        | nil => simp [hcs] at hlast
        | cons c0 cs =>
          rw [hcs] at hlast
          rw [List.getLast?_cons_cons]
          exact hlast
      · intro i fields' args' out' h1 h2
        cases i with
        | zero =>
          simp only [List.getElem?_cons_zero, Option.some.injEq] at h1 h2 ⊢
          rw [hobj] at h1
          simp only [JValue.obj.injEq] at h1
          subst h1
          simp only [Prod.mk.injEq, Except.ok.injEq] at h2
          rw [h2.2]
        | succ j =>
          simp only [List.getElem?_cons_succ] at h1 h2 ⊢
          exact F.resolved j fields' args' out' h1 h2
      · intro i hi
        cases i with
        | zero =>
          exact absurd (List.getElem?_cons_zero) (hi args out)
        | succ j =>
          simp only [List.getElem?_cons_succ] at hi ⊢
          exact F.untouched j hi

/-! ## `executeCommands` on well-formed requests -/

theorem validate_ok {σ : Type} (env : Env σ) (operation : String) (payload : List UInt8)
    (m : JMap) (hop : operation = "show" ∨ operation = "store")
    (hparse : env.unmarshal payload = .ok m)
    (hport : jget m "portName" ≠ .null) (hobjs : jget m "objects" ≠ .null) :
    validate env operation payload = (m, none) := by
  have hne : operation ≠ "" := by
    rcases hop with h | h <;> subst h <;> decide
  have hrw : ¬ (operation ≠ MTSIO_READ ∧ operation ≠ MTSIO_WRITE) := by
    rcases hop with h | h <;> subst h <;> decide
  unfold validate
  cases ho : jget m "objects" with
  | null => exact absurd ho hobjs
  | _ =>
    cases hp : jget m "portName" with
    | null => exact absurd hp hport
    | _ => simp [hparse, hne, hrw, ho, hp]

theorem executeCommands_valid {σ : Type} (env : Env σ) (operation : String)
    (payload : List UInt8) (s : σ) (m : JMap) (p : String) (os : List JValue)
    (hop : operation = "show" ∨ operation = "store")
    (hparse : env.unmarshal payload = .ok m)
    (hport : jget m "portName" = .str p) (hobjs : jget m "objects" = .arr os) :
    executeCommands env operation payload s =
      match (execLoop env operation (.str p) os s).status with
      | .panicked =>
        { state := (execLoop env operation (.str p) os s).state,
          calls := (execLoop env operation (.str p) os s).calls,
          published := [], jsonResp := none, panicked := true }
      | .failed err =>
        respond env operation (execLoop env operation (.str p) os s)
          (jset (jset (createJsonError err) "portName" (.str p))
            "objects" (.arr (execLoop env operation (.str p) os s).objects))
      | .completed =>
        respond env operation (execLoop env operation (.str p) os s)
          (jset (jset m "objects" (.arr (execLoop env operation (.str p) os s).objects))
            "success" (.bool true)) := by
  have hv := validate_ok env operation payload m hop hparse (by simp [hport]) (by simp [hobjs])
  have h1 : ∀ x, jget (jset m "objects" x) "portName" = .str p := by
    intro x
    rw [jget_jset_other _ _ _ _ (by decide), hport]
  unfold executeCommands
  simp only [hv, hobjs, asArray, hport, h1, jget_jset_same]

theorem respond_calls {σ : Type} (env : Env σ) (operation : String) (r : LoopResult σ)
    (resp : JMap) : (respond env operation r resp).calls = r.calls := by
  simp only [respond]
  split <;> rfl

theorem respond_jsonResp {σ : Type} (env : Env σ) (operation : String) (r : LoopResult σ)
    (resp : JMap) :
    (respond env operation r resp).jsonResp = some (jset resp "timestamp" (.str env.now)) := by
  simp only [respond]
  split <;> rfl

theorem respond_published {σ : Type} (env : Env σ) (operation : String) (r : LoopResult σ)
    (resp : JMap) :
    (respond env operation r resp).published =
      match env.marshal (jset resp "timestamp" (.str env.now)) with
      | .ok text => [(responseTopic env operation, text)]
      | .error _ => [] := by
  simp only [respond]
  cases h : env.marshal (jset resp "timestamp" (.str env.now)) <;> rfl

theorem executeCommands_calls {σ : Type} (env : Env σ) (operation : String)
    (payload : List UInt8) (s : σ) (m : JMap) (p : String) (os : List JValue)
    (hop : operation = "show" ∨ operation = "store")
    (hparse : env.unmarshal payload = .ok m)
    (hport : jget m "portName" = .str p) (hobjs : jget m "objects" = .arr os) :
    (executeCommands env operation payload s).calls
      = (execLoop env operation (.str p) os s).calls := by
  rw [executeCommands_valid env operation payload s m p os hop hparse hport hobjs]
  cases (execLoop env operation (.str p) os s).status <;> simp [respond_calls]

theorem getLast?_mem {α : Type} (l : List α) (a : α) (h : l.getLast? = some a) : a ∈ l := by
  induction l with
  | nil => simp at h
  | cons x xs ih =>
    cases xs with
    | nil =>
      simp at h
      simp [h]
    | cons y ys =>
      rw [List.getLast?_cons_cons] at h
      exact List.mem_cons_of_mem _ (ih h)

theorem status_of_all_ok {σ : Type} (env : Env σ) (operation p : String) (os : List JValue)
    (r : LoopResult σ) (F : LoopFacts env operation p os r)
    (hall : ∀ c ∈ r.calls, isOk c.2 = true) : r.status = .completed := by
  cases hst : r.status with
  | completed => rfl
  | panicked => exact absurd hst F.not_panicked
  | failed e =>
    obtain ⟨args, hlast⟩ := F.failed e hst
    have := hall _ (getLast?_mem _ _ hlast)
    simp [isOk] at this

theorem status_of_not_all_ok {σ : Type} (env : Env σ) (operation p : String) (os : List JValue)
    (r : LoopResult σ) (F : LoopFacts env operation p os r)
    (hfail : ¬ ∀ c ∈ r.calls, isOk c.2 = true) :
    ∃ e args, r.status = .failed e ∧ r.calls.getLast? = some (args, .error e) := by
  cases hst : r.status with
  | completed => exact absurd (F.completed hst).2 hfail
  | panicked => exact absurd hst F.not_panicked
  | failed e =>
    obtain ⟨args, hlast⟩ := F.failed e hst
    exact ⟨e, args, rfl, hlast⟩

/-! ## Validation -/

/-- When validation fails, `executeCommands` stops at the guard of line 300: no process is
invoked, nothing is marshalled or published, and the failure response stays in `jsonResp`. -/
theorem executeCommands_of_validation_failure {σ : Type} (env : Env σ) (operation : String)
    (payload : List UInt8) (s : σ) (m r : JMap)
    (hv : validate env operation payload = (m, some r)) :
    executeCommands env operation payload s
      = { state := s, calls := [], published := [], jsonResp := some r, panicked := false } := by
  simp [executeCommands, hv]

/-- The order of the validation steps, read off the local variable `jsonResp`: for operation
`show` or `store`, an unmarshal error gives the text `"Error encountered unmarshalling json: "`
followed by the library error; a missing `objects` gives `"The objects array is required"`
whatever `portName` is; `objects` present and `portName` missing gives `"portName is required"`.
No process is invoked in any of these cases. This value is not what the requester receives: see
`executeCommands_of_validation_failure`. -/
theorem validation_order_in_jsonResp {σ : Type} (env : Env σ) (operation : String)
    (payload : List UInt8) (s : σ) (hop : operation = "show" ∨ operation = "store") :
    (∀ e, env.unmarshal payload = .error e →
        ∃ resp msg, (executeCommands env operation payload s).jsonResp = some resp
          ∧ jget resp "success" = .bool false ∧ jget resp "error" = .str msg
          ∧ msg = "Error encountered unmarshalling json: " ++ e
          ∧ "Error encountered unmarshalling json: ".data <+: msg.data
          ∧ (executeCommands env operation payload s).calls = [])
      ∧ (∀ m, env.unmarshal payload = .ok m → jget m "objects" = .null →
        ∃ resp, (executeCommands env operation payload s).jsonResp = some resp
          ∧ jget resp "success" = .bool false
          ∧ jget resp "error" = .str "The objects array is required"
          ∧ (executeCommands env operation payload s).calls = [])
      ∧ (∀ m, env.unmarshal payload = .ok m → jget m "objects" ≠ .null →
        jget m "portName" = .null →
        ∃ resp, (executeCommands env operation payload s).jsonResp = some resp
          ∧ jget resp "success" = .bool false
          ∧ jget resp "error" = .str "portName is required"
          ∧ (executeCommands env operation payload s).calls = []) := by
  have hne : operation ≠ "" := by
    rcases hop with h | h <;> subst h <;> decide
  have hrw : ¬ (operation ≠ MTSIO_READ ∧ operation ≠ MTSIO_WRITE) := by
    rcases hop with h | h <;> subst h <;> decide
  have herr : ∀ msg : String, jget (createJsonError msg) "success" = .bool false
      ∧ jget (createJsonError msg) "error" = .str msg := by
    intro msg
    constructor
    · rfl
    · rfl
  refine ⟨?_, ?_, ?_⟩
  · intro e hparse
    have hv : validate env operation payload
        = ([], some (createJsonError ("Error encountered unmarshalling json: " ++ e))) := by
      simp [validate, hparse]
    refine ⟨_, "Error encountered unmarshalling json: " ++ e, ?_, (herr _).1, (herr _).2, rfl,
      ?_, ?_⟩
    · simp [executeCommands, hv]
    · rw [String.data_append]
      exact List.prefix_append _ _
    · simp [executeCommands, hv]
  · intro m hparse hobjs
    have hv : validate env operation payload
        = (m, some (createJsonError "The objects array is required")) := by
      simp [validate, hparse, hne, hrw, hobjs]
    exact ⟨_, by simp [executeCommands, hv], (herr _).1, (herr _).2,
      by simp [executeCommands, hv]⟩
  · intro m hparse hobjs hport
    have hv : validate env operation payload
        = (m, some (createJsonError "portName is required")) := by
      unfold validate
      cases ho : jget m "objects" with
      | null => exact absurd ho hobjs
      | _ => simp [hparse, hne, hrw, ho, hport]
    exact ⟨_, by simp [executeCommands, hv], (herr _).1, (herr _).2,
      by simp [executeCommands, hv]⟩

/-- C2, evaluated under operation `store` on a truncated payload, on the payload `{}` and on a
payload with `objects` but no `portName`: validation picks the errors in the order JSON parse,
`objects`, `portName` and no process is invoked, but in each case the error text stays in the
local variable `jsonResp` and nothing is published, so the request yields no error message. -/
theorem executeCommands_validation_errors_not_published :
    executeCommands sampleEnv "store" truncatedPayload []
        = { state := [], calls := [], published := [],
            jsonResp := some [("success", .bool false),
              ("error", .str "Error encountered unmarshalling json: unexpected end of JSON input")],
            panicked := false }
      ∧ sampleEnv.unmarshal emptyPayload = .ok []
      ∧ executeCommands sampleEnv "store" emptyPayload []
        = { state := [], calls := [], published := [],
            jsonResp := some [("success", .bool false),
              ("error", .str "The objects array is required")],
            panicked := false }
      ∧ sampleEnv.unmarshal objectsOnlyPayload = .ok [("objects", .arr [])]
      ∧ executeCommands sampleEnv "store" objectsOnlyPayload []
        = { state := [], calls := [], published := [],
            jsonResp := some [("success", .bool false), ("error", .str "portName is required")],
            panicked := false } :=
  ⟨rfl, rfl, rfl, rfl, rfl⟩

/-- C1, evaluated on the payload `{}` with operation `show`: the payload unmarshals to a map
without `objects`, the failure response with error `"The objects array is required"` is built
and the process is not invoked, but nothing is published: the publish step sits inside the block
guarded by `jsonResp == nil`. -/
theorem executeCommands_missing_objects_not_published :
    sampleEnv.unmarshal emptyPayload = .ok []
      ∧ (executeCommands sampleEnv "show" emptyPayload []).jsonResp
          = some [("success", .bool false), ("error", .str "The objects array is required")]
      ∧ (executeCommands sampleEnv "show" emptyPayload []).calls = []
      ∧ (executeCommands sampleEnv "show" emptyPayload []).published = [] := by
  exact ⟨rfl, rfl, rfl, rfl⟩

/-- C6, evaluated on a payload whose `objects` is the string `"dout0"`, operation `show`:
validation passes (`objects` and `portName` are non-null), the type assertion
`jsonPayload["objects"].([]interface{})` fails, and no response is published. -/
theorem executeCommands_panics_on_non_array_objects :
    sampleEnv.unmarshal badObjectsPayload
        = .ok [("portName", .str "gpiob"), ("objects", .str "dout0")]
      ∧ (executeCommands sampleEnv "show" badObjectsPayload []).panicked = true
      ∧ (executeCommands sampleEnv "show" badObjectsPayload []).published = [] := by
  exact ⟨rfl, rfl, rfl⟩

/-! ## Invocation order -/

/-- C3. For every well-formed request (string `portName`, every object with a string `name`) and
every behaviour of the device utility, the invocations made by `executeCommands` are
`createCommandArgs(operation, portName, o)` for the first `k` objects in array order, where every
invocation but the last succeeded, fewer than all objects are attempted only when the last
invocation failed, and all objects are attempted when no invocation fails. For the objects
`dout0` (value `true`) and `dout1` (value `false`) of port `gpiob` under `store`, the invocations
are `["store","gpiob/dout0","1"]` and then, only if that run succeeds,
`["store","gpiob/dout1","0"]`. -/
theorem executeCommands_invocations {σ : Type} (env : Env σ) (operation : String)
    (payload : List UInt8) (s : σ) (m : JMap) (p : String) (os : List JValue)
    (hop : operation = "show" ∨ operation = "store")
    (hparse : env.unmarshal payload = .ok m)
    (hport : jget m "portName" = .str p) (hobjs : jget m "objects" = .arr os)
    (hvalid : ∀ o ∈ os, validObject o = true) :
    (executeCommands env operation payload s).panicked = false
      ∧ (executeCommands env operation payload s).calls.length ≤ os.length
      ∧ (executeCommands env operation payload s).calls.map (fun c => some c.1)
          = (os.take (executeCommands env operation payload s).calls.length).map
              (fun o => (asObject o).bind (createCommandArgs env operation p))
      ∧ (∀ c ∈ (executeCommands env operation payload s).calls.dropLast, isOk c.2 = true)
      ∧ ((executeCommands env operation payload s).calls.length < os.length →
          ∃ args e, (executeCommands env operation payload s).calls.getLast?
            = some (args, .error e))
      ∧ ((∀ c ∈ (executeCommands env operation payload s).calls, isOk c.2 = true) →
          (executeCommands env operation payload s).calls.length = os.length)
      ∧ (operation = "store" → p = "gpiob" →
          os = [.obj [("name", .str "dout0"), ("value", .bool true)],
                .obj [("name", .str "dout1"), ("value", .bool false)]] →
          (executeCommands env operation payload s).calls.map (fun c => c.1)
            = if isOk (env.run s ["store", "gpiob/dout0", "1"]).1 = true
              then [["store", "gpiob/dout0", "1"], ["store", "gpiob/dout1", "0"]]
              else [["store", "gpiob/dout0", "1"]]) := by
  have F := execLoop_facts env operation p os s hvalid
  have hcalls := executeCommands_calls env operation payload s m p os hop hparse hport hobjs
  have hvalidEq := executeCommands_valid env operation payload s m p os hop hparse hport hobjs
  rw [hcalls]
  refine ⟨?_, F.calls_length, F.calls_args, F.init_ok, ?_, ?_, ?_⟩
  · rw [hvalidEq]
    cases hst : (execLoop env operation (.str p) os s).status with
    | panicked => exact absurd hst F.not_panicked
    | failed e => simp only [respond]; split <;> rfl
    | completed => simp only [respond]; split <;> rfl
  · intro hlt
    have hne : ¬ ∀ c ∈ (execLoop env operation (.str p) os s).calls, isOk c.2 = true := by
      intro hall
      have hst := status_of_all_ok env operation p os _ F hall
      have := (F.completed hst).1
      omega
    obtain ⟨e, args, _, hlast⟩ := status_of_not_all_ok env operation p os _ F hne
    exact ⟨args, e, hlast⟩
  · intro hall
    exact (F.completed (status_of_all_ok env operation p os _ F hall)).1
  · intro hstore hp hos
    subst hstore hp hos
    have h1 : itoa MTSIO_ON = "1" := by decide
    have h0 : itoa MTSIO_OFF = "0" := by decide
    have ha : createCommandArgs env "store" "gpiob" [("name", .str "dout0"), ("value", .bool true)]
        = some ["store", "gpiob/dout0", "1"] := by
      simp [createCommandArgs, jget, asString, MTSIO_WRITE, h1]
    have hb : createCommandArgs env "store" "gpiob" [("name", .str "dout1"), ("value", .bool false)]
        = some ["store", "gpiob/dout1", "0"] := by
      simp [createCommandArgs, jget, asString, MTSIO_WRITE, h0]
    simp only [execLoop, asString, asObject, ha, hb]
    rcases hrun : env.run s ["store", "gpiob/dout0", "1"] with ⟨res, s'⟩
    cases res with
    | error e => simp [isOk]
    | ok out =>
      simp only [isOk]
      rcases hrun2 : env.run s' ["store", "gpiob/dout1", "0"] with ⟨res2, s2⟩
      cases res2 <;> simp

/-- Witness for C3: the two-object write request of the specification, with a device utility
whose first run fails. -/
theorem executeCommands_invocations_witness :
    (executeCommands sampleEnv "store" writePayload [.error "exit status 1", .ok ""]).calls.map
        (fun c => c.1)
      = [["store", "gpiob/dout0", "1"]] :=
  (executeCommands_invocations sampleEnv "store" writePayload [.error "exit status 1", .ok ""]
    writeRequest "gpiob"
    [.obj [("name", .str "dout0"), ("value", .bool true)],
     .obj [("name", .str "dout1"), ("value", .bool false)]]
    (Or.inr rfl) rfl rfl rfl (by simp [validObject, jget, asString])).2.2.2.2.2.2 rfl rfl rfl

/-! ## Responses -/

theorem execLoop_objects_of_not_read {σ : Type} (env : Env σ) (operation p : String)
    (hop : operation ≠ MTSIO_READ) :
    ∀ (os : List JValue) (s : σ), (∀ o ∈ os, validObject o = true) →
      (execLoop env operation (.str p) os s).objects = os := by
  intro os
  induction os with
  | nil => intro s _; rfl
  | cons v rest ih =>
    intro s hvalid
    have hv : validObject v = true := hvalid v (List.mem_cons_self _ _)
    have hrest : ∀ o ∈ rest, validObject o = true := fun o ho => hvalid o (List.mem_cons_of_mem _ ho)
    obtain ⟨fields, args, hobj, hargs, hstep⟩ := execLoop_cons env operation p v rest s hv
    rw [hstep]
    rcases hrun : env.run s args with ⟨res, s'⟩
    cases res with
    | error err => rfl
    | ok out => simp [resolve, hop, ih s' hrest, hobj]

theorem resolve_read {σ : Type} (env : Env σ) (fields : JMap) (out : String) :
    ∃ fields', resolve env "show" fields out = .obj fields'
      ∧ jget fields' "value" = convertResponseValue env (stripNewlines out)
      ∧ ∀ k, k ≠ "value" → jget fields' k = jget fields k := by
  refine ⟨jset fields "value" (convertResponseValue env (stripNewlines out)), ?_, ?_, ?_⟩
  · simp [resolve, MTSIO_READ]
  · exact jget_jset_same _ _ _
  · intro k hk
    exact jget_jset_other _ _ _ _ (Ne.symm hk)

/-- C4, as amended. For every well-formed request in which some invocation fails, the response
built is a failure (success false, error the text of the failing run, the last one made) that
carries the request's `portName`, a timestamp and the `objects` array with the same length; every
object whose run did not succeed (the failing one and all later ones) is as in the request; on
`show` every object read successfully before the failure carries its decoded output as `value`,
its other fields unchanged; on `store` the objects are those of the request. The response is
published on the response topic of the operation unless marshalling fails. -/
theorem executeCommands_failure_response {σ : Type} (env : Env σ) (operation : String)
    (payload : List UInt8) (s : σ) (m : JMap) (p : String) (os : List JValue)
    (hop : operation = "show" ∨ operation = "store")
    (hparse : env.unmarshal payload = .ok m)
    (hport : jget m "portName" = .str p) (hobjs : jget m "objects" = .arr os)
    (hvalid : ∀ o ∈ os, validObject o = true)
    (hfail : ∃ c ∈ (executeCommands env operation payload s).calls, isOk c.2 = false) :
    ∃ args e resp os',
      (executeCommands env operation payload s).calls.getLast? = some (args, .error e)
      ∧ (executeCommands env operation payload s).jsonResp = some resp
      ∧ jget resp "success" = .bool false
      ∧ jget resp "error" = .str e
      ∧ jget resp "portName" = jget m "portName"
      ∧ jget resp "timestamp" = .str env.now
      ∧ jget resp "objects" = .arr os'
      ∧ os'.length = os.length
      ∧ (operation = "show" → ∀ (i : Nat) (fields : JMap) (args' : List String) (out : String),
          os[i]? = some (.obj fields) →
          (executeCommands env operation payload s).calls[i]? = some (args', .ok out) →
          ∃ fields', os'[i]? = some (.obj fields')
            ∧ jget fields' "value" = convertResponseValue env (stripNewlines out)
            ∧ ∀ k, k ≠ "value" → jget fields' k = jget fields k)
      ∧ (∀ i : Nat,
          (∀ args' out, (executeCommands env operation payload s).calls[i]? ≠ some (args', .ok out)) →
          os'[i]? = os[i]?)
      ∧ (operation = "store" → os' = os)
      ∧ (executeCommands env operation payload s).published
          = match env.marshal resp with
            | .ok text => [(responseTopic env operation, text)]
            | .error _ => [] := by
  have F := execLoop_facts env operation p os s hvalid
  have hcalls := executeCommands_calls env operation payload s m p os hop hparse hport hobjs
  have hvalidEq := executeCommands_valid env operation payload s m p os hop hparse hport hobjs
  rw [hcalls] at hfail ⊢
  have hne : ¬ ∀ c ∈ (execLoop env operation (.str p) os s).calls, isOk c.2 = true := by
    intro hall
    obtain ⟨c, hc, hcf⟩ := hfail
    rw [hall c hc] at hcf
    cases hcf
  obtain ⟨e, args, hst, hlast⟩ := status_of_not_all_ok env operation p os _ F hne
  rw [hvalidEq, hst]
  simp only [respond_jsonResp, respond_published]
  refine ⟨args, e, _, (execLoop env operation (.str p) os s).objects, hlast, rfl, ?_, ?_, ?_, ?_,
    ?_, F.objects_length, ?_, F.untouched, ?_, rfl⟩
  · rw [jget_jset_other _ _ _ _ (by decide), jget_jset_other _ _ _ _ (by decide),
      jget_jset_other _ _ _ _ (by decide)]
    rfl
  · rw [jget_jset_other _ _ _ _ (by decide), jget_jset_other _ _ _ _ (by decide),
      jget_jset_other _ _ _ _ (by decide)]
    rfl
  · rw [jget_jset_other _ _ _ _ (by decide), jget_jset_other _ _ _ _ (by decide),
      jget_jset_same, hport]
  · exact jget_jset_same _ _ _
  · rw [jget_jset_other _ _ _ _ (by decide), jget_jset_same]
  · intro hshow i fields args' out hi hc
    subst hshow
    obtain ⟨fields', hres, hval, hoth⟩ := resolve_read env fields out
    refine ⟨fields', ?_, hval, hoth⟩
    rw [F.resolved i fields args' out hi hc, hres]
  · intro hstore
    subst hstore
    exact execLoop_objects_of_not_read env "store" p (by decide) os s hvalid

/-- Witness for C4 as amended: a read of `din0`, `din1` where the second run fails. -/
theorem executeCommands_failure_response_witness :
    ∃ args e resp os',
      (executeCommands sampleEnv "show" readPayload
          [.ok "1\n", .error "exit status 1"]).calls.getLast? = some (args, .error e)
      ∧ (executeCommands sampleEnv "show" readPayload
          [.ok "1\n", .error "exit status 1"]).jsonResp = some resp
      ∧ jget resp "success" = .bool false
      ∧ jget resp "error" = .str e
      ∧ jget resp "objects" = .arr os'
      ∧ os'.length = 2 := by
  have hc : (executeCommands sampleEnv "show" readPayload
      [.ok "1\n", .error "exit status 1"]).calls
        = [(["show", "gpiob/din0"], .ok "1\n"), (["show", "gpiob/din1"], .error "exit status 1")] :=
    rfl
  obtain ⟨args, e, resp, os', h1, h2, h3, h4, _, _, h7, h8, _⟩ :=
    executeCommands_failure_response sampleEnv "show" readPayload
      [.ok "1\n", .error "exit status 1"] readRequest "gpiob"
      [.obj [("name", .str "din0"), ("value", .str "")],
       .obj [("name", .str "din1"), ("value", .str "")]]
      (Or.inl rfl) rfl rfl rfl (by simp [validObject, jget, asString])
      ⟨(["show", "gpiob/din1"], .error "exit status 1"), by rw [hc]; simp, rfl⟩
  exact ⟨args, e, resp, os', h1, h2, h3, h4, h7, h8⟩

/-- C4 as stated fails: in a read of `din0`, `din1` (both sent with value `""`) where the first
run prints `1` and the second run fails, the failure response carries `din0` with value `true`,
not the value `""` of the request. -/
theorem executeCommands_failure_shows_partial_progress :
    sampleEnv.unmarshal readPayload = .ok readRequest
      ∧ jget readRequest "objects"
          = .arr [.obj [("name", .str "din0"), ("value", .str "")],
                  .obj [("name", .str "din1"), ("value", .str "")]]
      ∧ (executeCommands sampleEnv "show" readPayload [.ok "1\n", .error "exit status 1"]).jsonResp
          = some [("success", .bool false), ("error", .str "exit status 1"),
                  ("portName", .str "gpiob"),
                  ("objects", .arr [.obj [("name", .str "din0"), ("value", .bool true)],
                                    .obj [("name", .str "din1"), ("value", .str "")]]),
                  ("timestamp", .str "2019-03-01T12:00:00Z")]
      ∧ ¬ (∃ resp, (executeCommands sampleEnv "show" readPayload
              [.ok "1\n", .error "exit status 1"]).jsonResp = some resp
            ∧ jget resp "objects" = jget readRequest "objects") := by
  refine ⟨rfl, rfl, rfl, ?_⟩
  rintro ⟨resp, h1, h2⟩
  have h : (executeCommands sampleEnv "show" readPayload
      [.ok "1\n", .error "exit status 1"]).jsonResp
        = some [("success", .bool false), ("error", .str "exit status 1"),
                ("portName", .str "gpiob"),
                ("objects", .arr [.obj [("name", .str "din0"), ("value", .bool true)],
                                  .obj [("name", .str "din1"), ("value", .str "")]]),
                ("timestamp", .str "2019-03-01T12:00:00Z")] := rfl
  rw [h] at h1
  simp only [Option.some.injEq] at h1
  subst h1
  simp [jget, readRequest] at h2

/-- C5. For every well-formed request in which every invocation succeeds, every object is
attempted and the response built is the request payload with `success` set to true and the
timestamp added: every other request field is echoed, `objects` has the same length and order;
on `show` each object carries as `value` the decoding of the output of its own command, its other
fields (the name among them) unchanged; on `store` the objects are those of the request. The
response is published on the response topic of the operation unless marshalling fails. -/
theorem executeCommands_success_response {σ : Type} (env : Env σ) (operation : String)
    (payload : List UInt8) (s : σ) (m : JMap) (p : String) (os : List JValue)
    (hop : operation = "show" ∨ operation = "store")
    (hparse : env.unmarshal payload = .ok m)
    (hport : jget m "portName" = .str p) (hobjs : jget m "objects" = .arr os)
    (hvalid : ∀ o ∈ os, validObject o = true)
    (hall : ∀ c ∈ (executeCommands env operation payload s).calls, isOk c.2 = true) :
    ∃ resp os',
      (executeCommands env operation payload s).jsonResp = some resp
      ∧ (executeCommands env operation payload s).calls.length = os.length
      ∧ jget resp "success" = .bool true
      ∧ jget resp "timestamp" = .str env.now
      ∧ (∀ k, k ≠ "success" → k ≠ "timestamp" → k ≠ "objects" → jget resp k = jget m k)
      ∧ jget resp "objects" = .arr os'
      ∧ os'.length = os.length
      ∧ (operation = "show" → ∀ (i : Nat) (fields : JMap), os[i]? = some (.obj fields) →
          ∃ args out fields', createCommandArgs env operation p fields = some args
            ∧ (executeCommands env operation payload s).calls[i]? = some (args, .ok out)
            ∧ os'[i]? = some (.obj fields')
            ∧ jget fields' "value" = convertResponseValue env (stripNewlines out)
            ∧ ∀ k, k ≠ "value" → jget fields' k = jget fields k)
      ∧ (operation = "store" → os' = os)
      ∧ (executeCommands env operation payload s).published
          = match env.marshal resp with
            | .ok text => [(responseTopic env operation, text)]
            | .error _ => [] := by
  have F := execLoop_facts env operation p os s hvalid
  have hcalls := executeCommands_calls env operation payload s m p os hop hparse hport hobjs
  have hvalidEq := executeCommands_valid env operation payload s m p os hop hparse hport hobjs
  rw [hcalls] at hall ⊢
  have hst := status_of_all_ok env operation p os _ F hall
  have hlen := (F.completed hst).1
  rw [hvalidEq, hst]
  simp only [respond_jsonResp, respond_published]
  refine ⟨_, (execLoop env operation (.str p) os s).objects, rfl, hlen, ?_, ?_, ?_, ?_,
    F.objects_length, ?_, ?_, rfl⟩
  · rw [jget_jset_other _ _ _ _ (by decide), jget_jset_same]
  · exact jget_jset_same _ _ _
  · intro k h1 h2 h3
    rw [jget_jset_other _ _ _ _ (Ne.symm h2), jget_jset_other _ _ _ _ (Ne.symm h1),
      jget_jset_other _ _ _ _ (Ne.symm h3)]
  · rw [jget_jset_other _ _ _ _ (by decide), jget_jset_other _ _ _ _ (by decide), jget_jset_same]
  · intro hshow i fields hi
    subst hshow
    have hilt : i < os.length := by
      rcases Nat.lt_or_ge i os.length with h | h
      · exact h
      · rw [List.getElem?_eq_none h] at hi
        cases hi
    have hic : i < (execLoop env "show" (.str p) os s).calls.length := by omega
    have hargs := congrArg (fun l => l[i]?) F.calls_args
    simp only [hlen, List.take_length, List.getElem?_map, hi, Option.map_some, asObject,
      Option.some_bind, List.getElem?_eq_getElem hic] at hargs
    rcases hc : (execLoop env "show" (.str p) os s).calls[i] with ⟨args, res⟩
    rw [hc] at hargs
    have hmem : (args, res) ∈ (execLoop env "show" (.str p) os s).calls := by
      rw [← hc]
      exact List.getElem_mem _
    have hok := hall _ hmem
    cases res with
    | error e => simp [isOk] at hok
    | ok out =>
      have hci : (execLoop env "show" (.str p) os s).calls[i]? = some (args, .ok out) := by
        rw [List.getElem?_eq_getElem hic, hc]
      obtain ⟨fields', hres, hval, hoth⟩ := resolve_read env fields out
      refine ⟨args, out, fields', ?_, hci, ?_, hval, hoth⟩
      · simp only [Option.map_some', Option.some_bind, Option.some.injEq] at hargs
        exact hargs.symm
      · rw [F.resolved i fields args out hi hci, hres]
  · intro hstore
    subst hstore
    exact execLoop_objects_of_not_read env "store" p (by decide) os s hvalid

/-- Witness for C5: a read of `din0`, `din1` whose runs print `1` and `ab`. -/
theorem executeCommands_success_response_witness :
    ∃ resp os',
      (executeCommands sampleEnv "show" readPayload [.ok "1\n", .ok "ab\n"]).jsonResp = some resp
      ∧ jget resp "success" = .bool true
      ∧ jget resp "objects" = .arr os'
      ∧ os'.length = 2
      ∧ (executeCommands sampleEnv "show" readPayload [.ok "1\n", .ok "ab\n"]).published
          = [("wayside/mtsio/read/response", "<response>")] := by
  have hc : (executeCommands sampleEnv "show" readPayload [.ok "1\n", .ok "ab\n"]).calls
      = [(["show", "gpiob/din0"], .ok "1\n"), (["show", "gpiob/din1"], .ok "ab\n")] := rfl
  obtain ⟨resp, os', h1, _, h3, _, _, h6, h7, _, _, h10⟩ :=
    executeCommands_success_response sampleEnv "show" readPayload [.ok "1\n", .ok "ab\n"]
      readRequest "gpiob"
      [.obj [("name", .str "din0"), ("value", .str "")],
       .obj [("name", .str "din1"), ("value", .str "")]]
      (Or.inl rfl) rfl rfl rfl (by simp [validObject, jget, asString])
      (by rw [hc]; simp [isOk])
  exact ⟨resp, os', h1, h3, h6, h7, by rw [h10]; rfl⟩

/-! ## Output trimming -/

/-- C10, as amended. On a successful `show`, the text handed to the decoder for an object is the
standard output of its command with every newline character removed: the object's new `value` is
the decoding of that text, the text contains no newline, and it equals the output without its
trailing newline whenever the output has no newline before its last character. -/
theorem execLoop_decodes_stripped_output {σ : Type} (env : Env σ) (p : String) (fields : JMap)
    (rest : List JValue) (s s' : σ) (args : List String) (out : String)
    (hargs : createCommandArgs env "show" p fields = some args)
    (hrun : env.run s args = (.ok out, s')) :
    (execLoop env "show" (.str p) (.obj fields :: rest) s).objects.head?
        = some (.obj (jset fields "value" (convertResponseValue env (stripNewlines out))))
      ∧ (stripNewlines out).data = out.data.filter (fun c => c != '\n')
      ∧ '\n' ∉ (stripNewlines out).data
      ∧ ('\n' ∉ out.data.dropLast → stripNewlines out = trimTrailingNewline out) := by
  refine ⟨?_, rfl, ?_, ?_⟩
  · simp [execLoop, asString, asObject, hargs, hrun, MTSIO_READ]
  · simp [stripNewlines]
  · intro h
    unfold stripNewlines trimTrailingNewline
    rcases List.eq_nil_or_concat out.data with hnil | ⟨init, last, hl⟩
    · have : out = "" := by
        cases out
        simp_all
      subst this
      rfl
    · have hout : out = String.mk (init ++ [last]) := by
        cases out
        simp_all
      subst hout
      simp only [List.dropLast_concat] at h
      have hfi : init.filter (fun c => c != '\n') = init := by
        rw [List.filter_eq_self]
        intro c hc
        have : c ≠ '\n' := fun hcn => h (hcn ▸ hc)
        simpa using this
      by_cases hlast : last = '\n'
      · subst hlast
        simp [List.filter_append, hfi]
      · simp [List.filter_append, hfi, hlast]

/-- Witness for C10 as amended: the output `42` followed by a newline is decoded from `42`. -/
theorem execLoop_decodes_stripped_output_witness :
    (execLoop sampleEnv "show" (.str "gpiob") [.obj [("name", .str "din0")]] [.ok "42\n"]).objects.head?
        = some (.obj (jset [("name", .str "din0")] "value"
            (convertResponseValue sampleEnv (stripNewlines "42\n"))))
      ∧ stripNewlines "42\n" = trimTrailingNewline "42\n" :=
  ⟨(execLoop_decodes_stripped_output sampleEnv "gpiob" [("name", .str "din0")] []
      [.ok "42\n"] [] ["show", "gpiob/din0"] "42\n" rfl rfl).1,
   (execLoop_decodes_stripped_output sampleEnv "gpiob" [("name", .str "din0")] []
      [.ok "42\n"] [] ["show", "gpiob/din0"] "42\n" rfl rfl).2.2.2 (by decide)⟩

/-- C10 as stated fails: for the output `a`, newline, `b`, newline, the text handed to the decoder
is `ab`, while the output without its trailing newline is `a`, newline, `b`; the interior newline
is not preserved, and a read that receives this output stores the value `"ab"`. -/
theorem stripNewlines_removes_interior_newline :
    stripNewlines "a\nb\n" = "ab"
      ∧ trimTrailingNewline "a\nb\n" = "a\nb"
      ∧ stripNewlines "a\nb\n" ≠ trimTrailingNewline "a\nb\n"
      ∧ (execLoop sampleEnv "show" (.str "gpiob") [.obj [("name", .str "din0")]]
            [.ok "a\nb\n"]).objects
          = [.obj [("name", .str "din0"), ("value", .str "ab")]] :=
  ⟨by decide, by decide, by decide, rfl⟩

end Mtsio
